import Mathlib

/-!
# Verification of the S3 assetstore adapter (girder)

Shallow embedding of `girder/utility/s3_assetstore_adapter.py` together with
the pieces of the upload protocol it interacts with.  Python strings are
embedded as `List Char` (named `Str`) so that the string surgery done by the
adapter (splitting URLs on `?`, prefix tests, suffix extraction) is directly
amenable to induction.  Python `int` is embedded as `Int`; byte counts that
are lengths of byte strings are embedded as `Nat`.  Python dicts holding the
upload / file / assetstore documents become structures, with `Option` for
keys that may be absent.  Backend (boto/S3) interactions are made explicit:
the values the backend would return (fresh multipart ids, the byte count the
backend reports as written, the listing of multipart sessions, the object
bytes fetched for a download) are passed as arguments, and observable
backend effects (key deletion, triggered events) are returned.
-/

/-- Embedding of a Python `str` as its sequence of characters. -/
abbrev Str := List Char

/-- Coerce a Lean string literal to the `Str` embedding. -/
def strOf (s : String) : Str := s.data

/-- Embedding of Python `str.startswith`. -/
def pyStartswith (s pre : Str) : Bool := pre.isPrefixOf s

/-- Embedding of Python `str.rstrip('/')`. -/
def pyRstripSlash (s : Str) : Str := (s.reverse.dropWhile (· = '/')).reverse

/-- Embedding of Python `str.lstrip('/')`. -/
def pyLstripSlash (s : Str) : Str := s.dropWhile (· = '/')

/-- Embedding of Python `str.strip('/')`. -/
def pyStripSlash (s : Str) : Str := pyRstripSlash (pyLstripSlash s)

/-- Embedding of Python `s.rsplit('/', 1)[-1]` (resp. `s.split('/')[-1]`):
the substring after the last `/`, or all of `s` when it has no `/`. -/
def lastSegment (s : Str) : Str := (s.reverse.takeWhile (· ≠ '/')).reverse

/-- Embedding of Python `url.split('?')`. -/
def splitQ : Str → List Str
  | [] => [[]]
  | c :: rest =>
    if c = '?' then [] :: splitQ rest
    else
      match splitQ rest with
      | [] => [[c]]
      | h :: t => (c :: h) :: t

/-- Render an `Int` the way Python string formatting does. -/
def intStr (n : Int) : Str := (toString n).data

/-- Render a `Nat` the way Python string formatting does. -/
def natStr (n : Nat) : Str := (toString n).data

theorem splitQ_ne_nil (s : Str) : splitQ s ≠ [] := by
  cases s with
  | nil => simp [splitQ]
  | cons c rest =>
    simp only [splitQ]
    split
    · simp
    · split <;> simp

theorem splitQ_no_q (s : Str) (h : ∀ c ∈ s, c ≠ '?') : splitQ s = [s] := by
  induction s with
  | nil => rfl
  | cons c rest ih =>
    have hc : c ≠ '?' := h c (by simp)
    have hrest : ∀ x ∈ rest, x ≠ '?' := fun x hx => h x (by simp [hx])
    simp only [splitQ, if_neg hc, ih hrest]

theorem splitQ_append (a s : Str) (h : ∀ c ∈ a, c ≠ '?') :
    splitQ (a ++ s) = ((splitQ s).headD [] |> (a ++ ·)) :: (splitQ s).tail := by
  induction a with
  | nil =>
    cases hs : splitQ s with
    | nil => exact absurd hs (splitQ_ne_nil s)
    | cons h t => simp [hs]
  | cons c rest ih =>
    have hc : c ≠ '?' := h c (by simp)
    have hrest : ∀ x ∈ rest, x ≠ '?' := fun x hx => h x (by simp [hx])
    simp only [List.cons_append, splitQ, if_neg hc, List.append_eq]
    rw [ih hrest]

theorem splitQ_qmark (a s : Str) (h : ∀ c ∈ a, c ≠ '?') :
    splitQ (a ++ '?' :: s) = a :: splitQ s := by
  rw [splitQ_append a ('?' :: s) h]
  simp only [splitQ, if_pos rfl]
  cases hs : splitQ s with
  | nil => exact absurd hs (splitQ_ne_nil s)
  | cons h t => simp

/-! ## Data model: assetstore, upload, file documents -/

/-- Connection parameter dictionary built by `makeBotoConnectParams`.
Absent keys are `none`; boto supplies the defaults (`is_secure = True`,
`host = s3.amazonaws.com`). -/
structure BotoConnect where
  is_secure : Option Bool := none
  host : Option Str := none
  anon : Option Bool := none
deriving DecidableEq, Repr

/-- The assetstore document, restricted to the fields the adapter reads. -/
structure Assetstore where
  astId : Nat
  bucket : Str
  pfx : Str
  accessKeyId : Str
  botoConnect : BotoConnect := {}
  service : Str := []
deriving DecidableEq, Repr

/-- The `request` sub-dictionary stored on an upload (`method`, later also
`url` and `headers`). -/
structure ReqInfo where
  method : Str
  url : Option Str := none
  headers : Option (List (Str × Str)) := none
deriving DecidableEq, Repr

/-- The `upload['s3']` sub-dictionary populated by `initUpload` and mutated
by the chunk-upload methods. -/
structure S3UploadState where
  chunked : Bool
  chunkLength : Int
  relpath : Str
  key : Str
  request : Option ReqInfo := none
  uploadId : Option Str := none
  keyName : Option Str := none
  partNumber : Option Int := none
deriving DecidableEq, Repr

/-- An upload session document, restricted to the fields this flow reads. -/
structure Upload where
  name : Str
  mimeType : Option Str := none
  userId : Str := strOf "uid"
  size : Int
  received : Int := 0
  behavior : Option Str := none
  s3 : Option S3UploadState := none
deriving DecidableEq, Repr

/-- Constant `S3AssetstoreAdapter.CHUNK_LEN`: chunk size for uploading. -/
def CHUNK_LEN : Int := 1024 * 1024 * 32

/-- Constant `S3AssetstoreAdapter.HMAC_TTL`: seconds each signed message is valid. -/
def HMAC_TTL : Int := 120

/-- Embedding of `S3AssetstoreAdapter._getRequestHeaders`.  `remoteIp` stands for
`cherrypy.request.remote.ip`, an ambient value of the HTTP layer. -/
def getRequestHeaders (upload : Upload) (remoteIp : Str) : List (Str × Str) :=
  [ (strOf "Content-Disposition",
      strOf "attachment; filename=\"" ++ upload.name ++ strOf "\""),
    (strOf "Content-Type", upload.mimeType.getD []),
    (strOf "x-amz-acl", strOf "private"),
    (strOf "x-amz-meta-authorized-length", intStr upload.size),
    (strOf "x-amz-meta-uploader-id", upload.userId),
    (strOf "x-amz-meta-uploader-ip", remoteIp) ]

/-! ## The signed-URL generator -/

/-- Embedding of `BotoCallingFormat.build_auth_path` (the repository subclasses boto's
calling format so that the key is not URL-quoted). -/
def build_auth_path (bucket key : Str) : Str :=
  (if bucket ≠ [] then strOf "/" ++ bucket else []) ++ strOf "/" ++ key

/-- Embedding of `BotoCallingFormat.build_path_base`. -/
def build_path_base (bucket key : Str) : Str :=
  (if bucket ≠ [] then strOf "/" ++ bucket ++ strOf "/" else strOf "/") ++ key

/-- The `Content-Type` entry of a header dictionary, empty when absent. -/
def contentTypeOf (headers : List (Str × Str)) : Str :=
  ((headers.find? (fun p => p.1 = strOf "Content-Type")).map Prod.snd).getD []

/-- The `x-amz-*` headers rendered one per line for the string to sign.
Boto additionally sorts them; the given order is kept here, which is
irrelevant to every property proved below. -/
def canonicalizedAmzHeaders (headers : List (Str × Str)) : Str :=
  ((headers.filter (fun p => pyStartswith p.1 (strOf "x-amz-"))).map
    (fun p => p.1 ++ strOf ":" ++ p.2 ++ strOf "\n")).foldr (· ++ ·) []

/-- Modelled from the spec (§4.1) and boto's documented S3 signature-v2
scheme (boto is an external library, not part of this repository): the
canonical string over which the HMAC signature of a query-authenticated URL
is computed — method, content headers, the expiry timestamp, the
canonicalized `x-amz` headers and the canonicalized resource path. -/
def stringToSign (method : Str) (headers : List (Str × Str)) (expires : Int)
    (authPath : Str) : Str :=
  method ++ strOf "\n\n" ++ contentTypeOf headers ++ strOf "\n" ++
    intStr expires ++ strOf "\n" ++ canonicalizedAmzHeaders headers ++ authPath

/-- Modelled from the spec (§4.1) and boto's documented `generate_url`
(external library): builds `scheme://host` + `build_path_base`, appends the
query-authentication parameters, and signs `stringToSign` over the
`build_auth_path` resource with expiry `now + expires_in`.  `hmac` is the
keyed HMAC-SHA1 (abstract here); its output is assumed URL-safe. -/
def generate_url (hmac : Str → Str) (accessKeyId : Str) (now expires_in : Int)
    (method : Str) (bucket key : Str) (headers : List (Str × Str))
    (conn : BotoConnect) : Str :=
  let expires := now + expires_in
  let scheme := if conn.is_secure.getD true then strOf "https" else strOf "http"
  let host := conn.host.getD (strOf "s3.amazonaws.com")
  let sig := hmac (stringToSign method headers expires (build_auth_path bucket key))
  scheme ++ strOf "://" ++ host ++ build_path_base bucket key ++
    strOf "?AWSAccessKeyId=" ++ accessKeyId ++
    strOf "&Expires=" ++ intStr expires ++ strOf "&Signature=" ++ sig

/-- Python truthiness of the optional `queryParams` argument. -/
def qTruthy : Option Str → Bool
  | none => false
  | some q => q ≠ []

/-- Embedding of `S3AssetstoreAdapter._botoGenerateUrl`: appends the extra query
parameters to the key before calling `generate_url`, then splits the result
on `?` and re-joins the three parts with `?`/`&` (the moto clause drops the
signature part for an insecure 127.0.0.1 endpoint with the `uploads`
query). -/
def botoGenerateUrl (ast : Assetstore) (hmac : Str → Str) (now : Int)
    (key : Str) (method : Str) (headers : List (Str × Str))
    (queryParams : Option Str) : Str :=
  let keyquery :=
    if qTruthy queryParams then key ++ '?' :: queryParams.getD [] else key
  let url := generate_url hmac ast.accessKeyId now HMAC_TTL method ast.bucket
    keyquery headers ast.botoConnect
  if qTruthy queryParams then
    let parts := splitQ url
    if parts.length = 3 then
      let config := ast.botoConnect
      if queryParams = some (strOf "uploads") ∧ ¬(config.is_secure.getD true) ∧
          config.host = some (strOf "127.0.0.1") then
        parts[0]! ++ '?' :: parts[1]!
      else
        parts[0]! ++ '?' :: parts[1]! ++ '&' :: parts[2]!
    else url
  else url

/-- Embedding of `S3AssetstoreAdapter._anonDownloadUrl`. -/
def anonDownloadUrl (ast : Assetstore) (key : Str) : Str :=
  if ast.service ≠ [] then
    (strOf "/").intercalate [ast.service, ast.bucket, pyLstripSlash key]
  else
    (strOf "/").intercalate
      [strOf "https://" ++ ast.bucket ++ strOf ".s3.amazonaws.com",
       pyLstripSlash key]

/-! ## initUpload -/

/-- Embedding of `S3AssetstoreAdapter.initUpload`.  `uid` stands for the random
`uuid.uuid4().hex` value and `now` for the wall clock, both ambient effects
made explicit. -/
def initUpload (ast : Assetstore) (hmac : Str → Str) (now : Int)
    (remoteIp : Str) (uid : Str) (upload : Upload) : Upload :=
  if upload.size ≤ 0 then upload
  else
    let key := (strOf "/").intercalate
      (List.filter (· ≠ []) [ast.pfx, uid.take 2, (uid.drop 2).take 2, uid])
    let path := strOf "/" ++ ast.bucket ++ strOf "/" ++ key
    let headers := getRequestHeaders upload remoteIp
    let chunked := decide (upload.size > CHUNK_LEN)
    let method := if chunked then strOf "POST" else strOf "PUT"
    let queryParams := if chunked then some (strOf "uploads") else none
    let url := botoGenerateUrl ast hmac now key method headers queryParams
    { upload with
      behavior := some (strOf "s3"),
      s3 := some
        { chunked := chunked,
          chunkLength := CHUNK_LEN,
          relpath := path,
          key := key,
          request := some
            { method := method, url := some url, headers := some headers } } }

/-! ## Concrete fixtures used by witnesses and counterexamples -/

/-- A concrete assetstore document (bucket `bucketname`, prefix `test`). -/
def ast0 : Assetstore :=
  { astId := 7, bucket := strOf "bucketname", pfx := strOf "test",
    accessKeyId := strOf "access" }

/-- A concrete client address. -/
def ip0 : Str := strOf "127.0.0.1"

/-- A concrete `uuid4().hex` value. -/
def uid0 : Str := strOf "0123456789abcdef0123456789abcdef"

/-- A concrete single-shot-sized upload spec (1024 declared bytes). -/
def u1024 : Upload := { name := strOf "My File.txt", size := 1024 }

/-- C4: for declared size `s`, `initUpload` yields `chunked = (s > CHUNK_LEN)`
with `CHUNK_LEN = 32 MiB`, request method `POST` when chunked and `PUT`
otherwise, and for `s ≤ 0` it returns the upload unchanged, populating no
backend sub-state and performing no backend allocation. -/
theorem initUpload_spec (ast : Assetstore) (hmac : Str → Str) (now : Int)
    (ip uid : Str) (u : Upload) :
    CHUNK_LEN = 32 * 1024 * 1024 ∧
    (u.size ≤ 0 → initUpload ast hmac now ip uid u = u) ∧
    (0 < u.size →
      (initUpload ast hmac now ip uid u).s3.map S3UploadState.chunked
          = some (decide (CHUNK_LEN < u.size)) ∧
      ((initUpload ast hmac now ip uid u).s3.bind S3UploadState.request).map
          ReqInfo.method
        = some (if CHUNK_LEN < u.size then strOf "POST" else strOf "PUT")) := by
  refine ⟨by norm_num [CHUNK_LEN], ?_, ?_⟩
  · intro h
    simp [initUpload, h]
  · intro h
    have h' : ¬ u.size ≤ 0 := by omega
    constructor
    · simp [initUpload, h']
    · simp only [initUpload, if_neg h', Option.bind_some, Option.map_some]
      by_cases hc : CHUNK_LEN < u.size
      · simp [hc]
      · simp [hc]

/-- Witness for C4 at the concrete single-shot scenario `size = 1024`:
the upload is not chunked and the delegated request method is `PUT`. -/
theorem initUpload_spec_witness :
    (0:Int) < u1024.size ∧
    (initUpload ast0 id 0 ip0 uid0 u1024).s3.map S3UploadState.chunked
        = some false ∧
    ((initUpload ast0 id 0 ip0 uid0 u1024).s3.bind S3UploadState.request).map
        ReqInfo.method = some (strOf "PUT") := by
  have h := (initUpload_spec ast0 id 0 ip0 uid0 u1024).2.2 (by decide)
  exact ⟨by decide, h.1.trans (by decide), h.2.trans (by decide)⟩

/-! ## C9: the signed-URL generator -/

/-- A character string free of `?`, so that the URL split on `?` recovers
the pieces it was assembled from. -/
def noQ (s : Str) : Prop := ∀ c ∈ s, c ≠ '?'

instance (s : Str) : Decidable (noQ s) := by
  unfold noQ
  infer_instance

theorem noQ_append {a b : Str} (ha : noQ a) (hb : noQ b) : noQ (a ++ b) := by
  intro c hc
  rcases List.mem_append.mp hc with h | h
  · exact ha c h
  · exact hb c h

theorem splitQ_three {a q s : Str} (ha : noQ a) (hq : noQ q) (hs : noQ s) :
    splitQ (a ++ '?' :: (q ++ '?' :: s)) = [a, q, s] := by
  rw [splitQ_qmark a (q ++ '?' :: s) ha, splitQ_qmark q s hq, splitQ_no_q s hs]

/-- C9 (amended): with extra query parameters `q` supplied (and outside the
moto-compatibility configuration), `_botoGenerateUrl` produces the bucket/key
path followed by `?`, then `q`, then `&` and the query-authentication
parameters, whose `Expires` value is `now + 120` (`HMAC_TTL`) and whose
signature is the HMAC of the string-to-sign over the auth path *with the
extra query parameters appended to the key* — the extras are part of the
signed resource, matching S3's treatment of subresources. -/
theorem botoGenerateUrl_spec (ast : Assetstore) (hmac : Str → Str) (now : Int)
    (key method : Str) (headers : List (Str × Str)) (q : Str)
    (hqne : q ≠ [])
    (hkey : noQ key) (hq : noQ q) (hbucket : noQ ast.bucket)
    (hacc : noQ ast.accessKeyId)
    (hhost : noQ (ast.botoConnect.host.getD (strOf "s3.amazonaws.com")))
    (hnum : noQ (intStr (now + 120)))
    (hsig : noQ (hmac (stringToSign method headers (now + 120)
      (build_auth_path ast.bucket (key ++ '?' :: q)))))
    (hmoto : ¬(q = strOf "uploads" ∧ ¬(ast.botoConnect.is_secure.getD true) ∧
      ast.botoConnect.host = some (strOf "127.0.0.1"))) :
    botoGenerateUrl ast hmac now key method headers (some q) =
      (if ast.botoConnect.is_secure.getD true then strOf "https" else strOf "http")
        ++ strOf "://" ++ ast.botoConnect.host.getD (strOf "s3.amazonaws.com")
        ++ build_path_base ast.bucket key
        ++ '?' :: (q ++ '&' :: (strOf "AWSAccessKeyId=" ++ ast.accessKeyId
          ++ strOf "&Expires=" ++ intStr (now + 120) ++ strOf "&Signature="
          ++ hmac (stringToSign method headers (now + 120)
            (build_auth_path ast.bucket (key ++ '?' :: q))))) := by
  have hqt : qTruthy (some q) = true := by simp [qTruthy, hqne]
  have hscheme : noQ (if ast.botoConnect.is_secure.getD true then strOf "https"
      else strOf "http") := by
    split <;> decide
  have hsep : noQ (strOf "://") := by decide
  have hA : noQ ((if ast.botoConnect.is_secure.getD true then strOf "https"
      else strOf "http") ++ strOf "://"
      ++ ast.botoConnect.host.getD (strOf "s3.amazonaws.com")
      ++ build_path_base ast.bucket key) := by
    refine noQ_append (noQ_append (noQ_append hscheme hsep) hhost) ?_
    unfold build_path_base
    split
    · exact noQ_append (noQ_append (noQ_append (by decide) hbucket) (by decide)) hkey
    · exact noQ_append (by decide) hkey
  have hS : noQ (strOf "AWSAccessKeyId=" ++ ast.accessKeyId
      ++ strOf "&Expires=" ++ intStr (now + 120) ++ strOf "&Signature="
      ++ hmac (stringToSign method headers (now + 120)
        (build_auth_path ast.bucket (key ++ '?' :: q)))) := by
    refine noQ_append (noQ_append (noQ_append (noQ_append
      (noQ_append (by decide) hacc) (by decide)) hnum) (by decide)) hsig
  have hurl : generate_url hmac ast.accessKeyId now HMAC_TTL method ast.bucket
      (key ++ '?' :: q) headers ast.botoConnect =
      ((if ast.botoConnect.is_secure.getD true then strOf "https"
        else strOf "http") ++ strOf "://"
        ++ ast.botoConnect.host.getD (strOf "s3.amazonaws.com")
        ++ build_path_base ast.bucket key)
      ++ '?' :: (q ++ '?' :: (strOf "AWSAccessKeyId=" ++ ast.accessKeyId
        ++ strOf "&Expires=" ++ intStr (now + 120) ++ strOf "&Signature="
        ++ hmac (stringToSign method headers (now + 120)
          (build_auth_path ast.bucket (key ++ '?' :: q))))) := by
    show generate_url _ _ _ _ _ _ _ _ _ = _
    unfold generate_url
    have h120 : HMAC_TTL = (120 : Int) := rfl
    rw [h120]
    have hbp : build_path_base ast.bucket (key ++ '?' :: q) =
        build_path_base ast.bucket key ++ '?' :: q := by
      unfold build_path_base
      split <;> simp [List.append_assoc]
    rw [hbp]
    simp only [List.append_assoc, List.cons_append, List.nil_append]
    rfl
  unfold botoGenerateUrl
  simp only [hqt, if_true, Option.getD_some]
  rw [hurl, splitQ_three hA hq hS]
  have hmoto' : ¬(some q = some (strOf "uploads") ∧
      ¬ast.botoConnect.is_secure.getD true = true ∧
      ast.botoConnect.host = some (strOf "127.0.0.1")) := by simpa using hmoto
  simp [hmoto', List.append_assoc]
  intro h1 h2 h3
  exact hmoto ⟨h1, by simp [h2], h3⟩

/-- A concrete stand-in for the keyed HMAC whose output, like real
base64-encoded HMAC-SHA1 output, contains no `?`. -/
def hmac0 : Str → Str := fun s => s.filter (· ≠ '?')

/-- Witness for C9 (amended) at concrete inputs: part-upload query extras
are appended after `?`, followed by `&` and the auth query whose expiry is
`0 + 120` and whose signature covers the auth path with the extras. -/
theorem botoGenerateUrl_spec_witness :
    botoGenerateUrl ast0 hmac0 0 (strOf "k") (strOf "PUT") []
        (some (strOf "partNumber=1&uploadId=abcd")) =
      strOf "https://s3.amazonaws.com/bucketname/k?partNumber=1&uploadId=abcd&AWSAccessKeyId=access&Expires=120&Signature="
        ++ hmac0 (stringToSign (strOf "PUT") [] 120
          (strOf "/bucketname/k?partNumber=1&uploadId=abcd")) := by
  have h := botoGenerateUrl_spec ast0 hmac0 0 (strOf "k") (strOf "PUT") []
    (strOf "partNumber=1&uploadId=abcd") (by decide) (by decide) (by decide)
    (by decide) (by decide) (by decide) (by decide) (by decide) (by decide)
  exact h.trans (by decide)

/-- C9 counterexample: the signature embedded in the generated URL is the
HMAC of the string-to-sign over the auth path *with* the extra query
parameters appended (`/bucketname/k?uploads`), and that value differs from
the signature computed over the path alone (`/bucketname/k`) — refuting the
claim that the signature is computed over the path only and not the extra
query parameters. -/
theorem botoGenerateUrl_counterexample :
    botoGenerateUrl ast0 hmac0 0 (strOf "k") (strOf "POST") []
        (some (strOf "uploads")) =
      strOf "https://s3.amazonaws.com/bucketname/k?uploads&AWSAccessKeyId=access&Expires=120&Signature="
        ++ hmac0 (stringToSign (strOf "POST") [] 120 (strOf "/bucketname/k?uploads")) ∧
    hmac0 (stringToSign (strOf "POST") [] 120 (strOf "/bucketname/k?uploads")) ≠
      hmac0 (stringToSign (strOf "POST") [] 120 (strOf "/bucketname/k")) := by
  constructor
  · decide
  · decide

/-! ## uploadChunk: proxied transfers and the session manager -/

/-- Outcome of one chunk submission: the updated upload document, or the
validation error raised; `err` also records whether the partially-written
backend object was deleted before raising. -/
inductive ChunkResult where
  | ok (u : Upload)
  | err (msg : Str) (deletedKey : Bool)
deriving DecidableEq, Repr

/-- Embedding of `S3AssetstoreAdapter._proxiedUploadChunk`.  `newUploadId` and
`newKeyName` stand for the multipart id and key name the backend mints when
`initiate_multipart_upload` is called; `reported` is the byte count the
backend reports as written for this chunk (`key.size`). -/
def proxiedUploadChunk (upload : Upload) (newUploadId newKeyName : Str)
    (reported : Int) : ChunkResult :=
  match upload.s3 with
  | none => .err (strOf "KeyError: s3") false
  | some st =>
    if st.chunked then
      let st1 := if st.uploadId.isSome then st
        else { st with uploadId := some newUploadId,
                       keyName := some newKeyName, partNumber := some 0 }
      let st2 := { st1 with partNumber := some (st1.partNumber.getD 0 + 1) }
      .ok { upload with s3 := some st2,
                        received := upload.received + reported }
    else
      if reported < upload.size then
        .err (strOf "Uploads of this length must be sent in a single chunk.")
          true
      else
        .ok { upload with received := reported }

/-- Modelled from the spec (§4.3, §8) and this repository's tests: the
Upload Session Manager (girder's upload model / REST layer, not among the
source files) validates each proxied chunk before dispatching it to the
adapter — strict offset equality against `received`, the configured minimum
chunk size (except for a final chunk that completes the file), and the
declared total size ("Received too many bytes.").  `chunkLen` is the byte
length of the submitted chunk; a successful proxied backend write reports
exactly `chunkLen` bytes written. -/
def handleChunk (minChunkSize : Int) (upload : Upload)
    (newUploadId newKeyName : Str) (offset : Int) (chunkLen : Nat) :
    ChunkResult :=
  if offset ≠ upload.received then
    .err (strOf "Server has received " ++ intStr upload.received ++
      strOf " bytes, but client sent offset " ++ intStr offset ++ strOf ".")
      false
  else if (chunkLen : Int) < minChunkSize ∧
      upload.received + (chunkLen : Int) < upload.size then
    .err (strOf "Chunk is smaller than the minimum size.") false
  else if upload.received + (chunkLen : Int) > upload.size then
    .err (strOf "Received too many bytes.") false
  else
    proxiedUploadChunk upload newUploadId newKeyName (chunkLen : Int)

/-- One client chunk submission against the session: a validation error
leaves the stored upload document as it was. -/
def runChunk (minChunkSize : Int) (upload : Upload)
    (op : Str × Str × Int × Nat) : Upload :=
  match handleChunk minChunkSize upload op.1 op.2.1 op.2.2.1 op.2.2.2 with
  | .ok u => u
  | .err _ _ => upload

/-- A whole sequence of chunk submissions. -/
def runChunks (minChunkSize : Int) (upload : Upload)
    (ops : List (Str × Str × Int × Nat)) : Upload :=
  ops.foldl (runChunk minChunkSize) upload

theorem handleChunk_ok (ms : Int) (u : Upload) (nid nkn : Str)
    (offset : Int) (len : Nat) (u' : Upload)
    (h0 : 0 ≤ u.received) (h1 : u.received ≤ u.size)
    (h : handleChunk ms u nid nkn offset len = .ok u') :
    u.received ≤ u'.received ∧ 0 ≤ u'.received ∧ u'.received ≤ u.size ∧
      u'.size = u.size := by
  unfold handleChunk proxiedUploadChunk at h
  split at h
  · simp at h
  · split at h
    · simp at h
    · split at h
      · simp at h
      · rename_i hoff hmin hover
        split at h
        · simp at h
        · rename_i st hst
          split at h
          · simp only [ChunkResult.ok.injEq] at h
            subst h
            refine ⟨?_, ?_, ?_, rfl⟩ <;> simp only <;> omega
          · split at h
            · simp at h
            · rename_i hshort
              simp only [ChunkResult.ok.injEq] at h
              subst h
              refine ⟨?_, ?_, ?_, rfl⟩ <;> simp only <;> omega

theorem runChunk_step (ms : Int) (u : Upload) (op : Str × Str × Int × Nat)
    (h0 : 0 ≤ u.received) (h1 : u.received ≤ u.size) :
    u.received ≤ (runChunk ms u op).received ∧
    0 ≤ (runChunk ms u op).received ∧
    (runChunk ms u op).received ≤ u.size ∧
    (runChunk ms u op).size = u.size := by
  obtain ⟨nid, nkn, offset, len⟩ := op
  unfold runChunk
  cases h : handleChunk ms u nid nkn offset len with
  | ok u' => exact handleChunk_ok ms u nid nkn offset len u' h0 h1 h
  | err m d => exact ⟨le_refl _, h0, h1, rfl⟩

theorem runChunks_inv (ms : Int) (ops : List (Str × Str × Int × Nat)) :
    ∀ u : Upload, 0 ≤ u.received → u.received ≤ u.size →
      0 ≤ (runChunks ms u ops).received ∧
      (runChunks ms u ops).received ≤ u.size ∧
      (runChunks ms u ops).size = u.size ∧
      u.received ≤ (runChunks ms u ops).received := by
  induction ops with
  | nil =>
    intro u h0 h1
    exact ⟨h0, h1, rfl, le_refl _⟩
  | cons op rest ih =>
    intro u h0 h1
    have hs := runChunk_step ms u op h0 h1
    have hnext := ih (runChunk ms u op) hs.2.1 (hs.2.2.2 ▸ hs.2.2.1)
    have hfold : runChunks ms u (op :: rest) =
        runChunks ms (runChunk ms u op) rest := rfl
    rw [hfold]
    refine ⟨hnext.1, ?_, ?_, le_trans hs.1 hnext.2.2.2⟩
    · exact le_trans hnext.2.1 (le_of_eq hs.2.2.2)
    · exact hnext.2.2.1.trans hs.2.2.2

/-- C1: for every upload session whose state satisfies the session invariant
(`0 ≤ received ≤ size`) and every sequence of `uploadChunk` operations
through the session manager, `received` stays within `[0, size]` of the
unchanged declared `size`, never drops below its starting value, and is
monotonically non-decreasing: one further operation applied after any prefix
of the sequence never decreases it. -/
theorem upload_received_monotone (ms : Int) (u : Upload)
    (ops : List (Str × Str × Int × Nat)) (op : Str × Str × Int × Nat)
    (h0 : 0 ≤ u.received) (h1 : u.received ≤ u.size) :
    0 ≤ (runChunks ms u ops).received ∧
    (runChunks ms u ops).received ≤ u.size ∧
    (runChunks ms u ops).size = u.size ∧
    u.received ≤ (runChunks ms u ops).received ∧
    (runChunks ms u ops).received ≤ (runChunks ms u (ops ++ [op])).received := by
  have hinv := runChunks_inv ms ops u h0 h1
  have happ : runChunks ms u (ops ++ [op]) =
      runChunk ms (runChunks ms u ops) op := by
    unfold runChunks
    rw [List.foldl_append]
    rfl
  have hstep := runChunk_step ms (runChunks ms u ops) op hinv.1
    (hinv.2.2.1 ▸ hinv.2.1)
  exact ⟨hinv.1, hinv.2.1, hinv.2.2.1, hinv.2.2.2, happ ▸ hstep.1⟩

/-- Witness for C1: a concrete session of three submissions (a valid first
chunk, an offset-mismatched one, an oversized one) followed by one more. -/
theorem upload_received_monotone_witness :
    0 ≤ (runChunks 0 u1024
        [(strOf "m", strOf "k", 0, 100), (strOf "m", strOf "k", 5, 7),
         (strOf "m", strOf "k", 100, 2000)]).received ∧
    (runChunks 0 u1024
        [(strOf "m", strOf "k", 0, 100), (strOf "m", strOf "k", 5, 7),
         (strOf "m", strOf "k", 100, 2000)]).received ≤ u1024.size ∧
    (runChunks 0 u1024
        [(strOf "m", strOf "k", 0, 100), (strOf "m", strOf "k", 5, 7),
         (strOf "m", strOf "k", 100, 2000)]).size = u1024.size ∧
    u1024.received ≤ (runChunks 0 u1024
        [(strOf "m", strOf "k", 0, 100), (strOf "m", strOf "k", 5, 7),
         (strOf "m", strOf "k", 100, 2000)]).received ∧
    (runChunks 0 u1024
        [(strOf "m", strOf "k", 0, 100), (strOf "m", strOf "k", 5, 7),
         (strOf "m", strOf "k", 100, 2000)]).received ≤
      (runChunks 0 u1024
        ([(strOf "m", strOf "k", 0, 100), (strOf "m", strOf "k", 5, 7),
          (strOf "m", strOf "k", 100, 2000)] ++
         [(strOf "m", strOf "k", 100, 924)])).received :=
  upload_received_monotone 0 u1024
    [(strOf "m", strOf "k", 0, 100), (strOf "m", strOf "k", 5, 7),
     (strOf "m", strOf "k", 100, 2000)]
    (strOf "m", strOf "k", 100, 924) (by decide) (by decide)

/-- C2: submitting a chunk whose claimed offset differs from the session's
current `received` fails with the offset-mismatch validation error and
leaves the stored upload document — in particular `received` — unchanged. -/
theorem offset_mismatch_spec (ms : Int) (u : Upload) (nid nkn : Str)
    (offset : Int) (len : Nat) (h : offset ≠ u.received) :
    handleChunk ms u nid nkn offset len =
      .err (strOf "Server has received " ++ intStr u.received ++
        strOf " bytes, but client sent offset " ++ intStr offset ++ strOf ".")
        false ∧
    runChunk ms u (nid, nkn, offset, len) = u := by
  have h1 : handleChunk ms u nid nkn offset len =
      .err (strOf "Server has received " ++ intStr u.received ++
        strOf " bytes, but client sent offset " ++ intStr offset ++ strOf ".")
        false := by
    unfold handleChunk
    rw [if_pos h]
  refine ⟨h1, ?_⟩
  unfold runChunk
  simp only
  rw [h1]

/-- Witness for C2, matching the repository's test: offset 100 against a
session that has received 0 bytes. -/
theorem offset_mismatch_spec_witness :
    handleChunk 0 u1024 (strOf "m") (strOf "k") 100 5 =
      .err (strOf "Server has received 0 bytes, but client sent offset 100.")
        false ∧
    runChunk 0 u1024 (strOf "m", strOf "k", 100, 5) = u1024 := by
  have h := offset_mismatch_spec 0 u1024 (strOf "m") (strOf "k") 100 5
    (by decide)
  exact ⟨h.1.trans (by decide), h.2⟩

/-- C6: a single-shot (non-chunked) proxied upload for which the backend
reports fewer bytes written than the declared size deletes the
partially-written backend object and raises a validation error — the upload
does not succeed with short content. -/
theorem short_write_spec (u : Upload) (st : S3UploadState) (nid nkn : Str)
    (reported : Int) (hs3 : u.s3 = some st) (hch : st.chunked = false)
    (hlt : reported < u.size) :
    proxiedUploadChunk u nid nkn reported =
      .err (strOf "Uploads of this length must be sent in a single chunk.")
        true := by
  unfold proxiedUploadChunk
  rw [hs3]
  simp [hch, hlt]

/-- A concrete non-chunked upload session with populated backend state. -/
def uSingle : Upload :=
  { name := strOf "hello.txt", size := 11,
    s3 := some
      { chunked := false, chunkLength := CHUNK_LEN,
        relpath := strOf "/bucketname/test/ab/cd/abcd",
        key := strOf "test/ab/cd/abcd" } }

/-- Witness for C6: the backend reports 6 of 11 declared bytes written. -/
theorem short_write_spec_witness :
    proxiedUploadChunk uSingle (strOf "m") (strOf "k") 6 =
      .err (strOf "Uploads of this length must be sent in a single chunk.")
        true :=
  short_write_spec uSingle
    { chunked := false, chunkLength := CHUNK_LEN,
      relpath := strOf "/bucketname/test/ab/cd/abcd", key := strOf "test/ab/cd/abcd" }
    (strOf "m") (strOf "k") 6 (by decide) (by decide) (by decide)

/-! ## requestOffset -/

/-- Result of `requestOffset`: the proxied byte count, a resume-request
descriptor for a single-shot delegated transfer, or the validation error
raised. -/
inductive OffsetResult where
  | off (n : Int)
  | resume (method : Str) (url : Str) (headers : List (Str × Str)) (offset : Int)
  | err (msg : Str)
deriving DecidableEq, Repr

/-- Whether a `requestOffset` outcome is a raised validation error. -/
def OffsetResult.isErr : OffsetResult → Bool
  | .err _ => true
  | _ => false

/-- Embedding of `S3AssetstoreAdapter.requestOffset`. -/
def requestOffset (ast : Assetstore) (hmac : Str → Str) (now : Int)
    (remoteIp : Str) (upload : Upload) : OffsetResult :=
  if upload.received > 0 then .off upload.received
  else
    match upload.s3 with
    | none => .err (strOf "KeyError: s3")
    | some st =>
      if st.chunked then
        .err (strOf "You should not call requestOffset on a chunked direct-to-S3 upload.")
      else
        let headers := getRequestHeaders upload remoteIp
        .resume (strOf "PUT")
          (botoGenerateUrl ast hmac now st.key (strOf "PUT") headers none)
          headers 0

/-- C3 (amended): on an upload with `chunked = true`, `requestOffset` fails
with the chunked-direct-upload validation error precisely when no bytes have
been proxied through the server (`received ≤ 0`); once bytes have been
proxied (`received > 0`) it instead returns the received byte count. -/
theorem requestOffset_chunked (ast : Assetstore) (hmac : Str → Str)
    (now : Int) (ip : Str) (u : Upload) (st : S3UploadState)
    (hs3 : u.s3 = some st) (hch : st.chunked = true) :
    (¬ u.received > 0 → requestOffset ast hmac now ip u =
      .err (strOf "You should not call requestOffset on a chunked direct-to-S3 upload.")) ∧
    (u.received > 0 → requestOffset ast hmac now ip u = .off u.received) := by
  constructor <;> intro h <;> unfold requestOffset
  · rw [if_neg h, hs3]
    simp [hch]
  · rw [if_pos h]

/-- The populated chunked backend sub-state of a proxied multipart session. -/
def stChunked : S3UploadState :=
  { chunked := true, chunkLength := CHUNK_LEN,
    relpath := strOf "/bucketname/test/ab/cd/abcd",
    key := strOf "test/ab/cd/abcd",
    uploadId := some (strOf "mpUploadId"),
    keyName := some (strOf "test/ab/cd/abcd"),
    partNumber := some 1 }

/-- A 5 GiB chunked upload through which one 32 MiB part has been proxied. -/
def uChunked : Upload :=
  { name := strOf "big.dat", size := 5 * 1024 * 1024 * 1024,
    received := 33554432, s3 := some stChunked }

/-- A fresh 5 GiB chunked upload with no bytes proxied. -/
def uChunkedFresh : Upload :=
  { name := strOf "big.dat", size := 5 * 1024 * 1024 * 1024,
    received := 0,
    s3 := some
      { chunked := true, chunkLength := CHUNK_LEN,
        relpath := strOf "/bucketname/test/ab/cd/abcd",
        key := strOf "test/ab/cd/abcd" } }

/-- C3 counterexample: a 5 GiB upload with `chunked = true` through which a
32 MiB part has been proxied — `requestOffset` does not fail, it returns the
byte count (exactly the behaviour the repository's test file_test.py:600-604
asserts), refuting the claim that it fails on every chunked upload. -/
theorem requestOffset_counterexample :
    uChunked.s3.map S3UploadState.chunked = some true ∧
    requestOffset ast0 hmac0 0 ip0 uChunked = .off 33554432 ∧
    (requestOffset ast0 hmac0 0 ip0 uChunked).isErr = false := by
  refine ⟨rfl, rfl, rfl⟩

/-- Witness for C3 (amended): the fresh chunked upload fails with the
validation error; the proxied one returns its 32 MiB offset. -/
theorem requestOffset_chunked_witness :
    requestOffset ast0 hmac0 0 ip0 uChunkedFresh =
      .err (strOf "You should not call requestOffset on a chunked direct-to-S3 upload.") ∧
    requestOffset ast0 hmac0 0 ip0 uChunked = .off 33554432 := by
  constructor
  · exact (requestOffset_chunked ast0 hmac0 0 ip0 uChunkedFresh
      { chunked := true, chunkLength := CHUNK_LEN,
        relpath := strOf "/bucketname/test/ab/cd/abcd",
        key := strOf "test/ab/cd/abcd" } rfl rfl).1 (by decide)
  · exact ((requestOffset_chunked ast0 hmac0 0 ip0 uChunked stChunked rfl
      rfl).2 (by decide)).trans (by decide)

/-! ## File records, downloadFile and deleteFile -/

/-- A persisted file metadata record, restricted to the fields this flow
reads and writes.  Imported files carry `imported = true` and no `relpath`;
finalized uploaded files carry `relpath` and `s3Key`. -/
structure FileRec where
  fid : Nat
  name : Str
  itemId : Nat := 0
  size : Int
  imported : Bool := false
  s3Key : Option Str := none
  relpath : Option Str := none
  assetstoreId : Nat
deriving DecidableEq, Repr

/-- Result of `downloadFile`: an HTTP redirect, a zero-length response with
content headers set directly, or a pass-through byte stream. -/
inductive DownloadResult where
  | redirect (url : Str)
  | emptyWithHeaders (contentLength contentType contentDisposition : Str)
  | stream (bytes : Str)
deriving DecidableEq, Repr

/-- Embedding of `S3AssetstoreAdapter.downloadFile`.  `content` is the byte string the
backend serves for the file's key (fetched with `requests.get` over the
generated URL); the Python generator pipes it through unchanged in 64 KiB
chunks.  A missing `s3Key` (never the case for a finalized or imported
file) is read as the empty key. -/
def downloadFile (ast : Assetstore) (hmac : Str → Str) (now : Int)
    (file : FileRec) (content : Str) (offset : Int) (headers : Bool) :
    DownloadResult :=
  let urlFn : Str → Str := fun key =>
    if ast.botoConnect.anon = some true then anonDownloadUrl ast key
    else botoGenerateUrl ast hmac now key (strOf "GET") [] none
  if headers then
    if file.size > 0 then .redirect (urlFn (file.s3Key.getD []))
    else .emptyWithHeaders (strOf "0") (strOf "application/octet-stream")
      (strOf "attachment; filename=\"" ++ file.name ++ strOf "\"")
  else
    .stream (if file.size > 0 then content else [])

/-- C7 (amended): empty files are served as a zero-length stream with
`Content-Length`, `Content-Type` and `Content-Disposition` set directly;
non-empty files are served either by an HTTP redirect to a backend URL (the
time-limited signed URL, or the plain public URL for an anonymous
connection) when serving headers, or by a pass-through byte stream of the
entire object content when aggregating into an archive — the `offset`
argument is ignored by this adapter. -/
theorem downloadFile_spec (ast : Assetstore) (hmac : Str → Str) (now : Int)
    (file : FileRec) (content : Str) (offset : Int) :
    (file.size ≤ 0 → downloadFile ast hmac now file content offset true =
      .emptyWithHeaders (strOf "0") (strOf "application/octet-stream")
        (strOf "attachment; filename=\"" ++ file.name ++ strOf "\"")) ∧
    (0 < file.size → downloadFile ast hmac now file content offset true =
      .redirect (if ast.botoConnect.anon = some true then
          anonDownloadUrl ast (file.s3Key.getD [])
        else botoGenerateUrl ast hmac now (file.s3Key.getD []) (strOf "GET")
          [] none)) ∧
    (0 < file.size →
      downloadFile ast hmac now file content offset false = .stream content) ∧
    (file.size ≤ 0 →
      downloadFile ast hmac now file content offset false = .stream []) := by
  refine ⟨fun h => ?_, fun h => ?_, fun h => ?_, fun h => ?_⟩
  · simp [downloadFile, show ¬ file.size > 0 by omega]
  · simp [downloadFile, h]
  · simp [downloadFile, h]
  · simp [downloadFile, show ¬ file.size > 0 by omega]

/-- A concrete non-empty finalized file record of size 3. -/
def fileAbc : FileRec :=
  { fid := 1, name := strOf "hello.txt", size := 3,
    s3Key := some (strOf "test/ab/cd/abcd"),
    relpath := some (strOf "/bucketname/test/ab/cd/abcd"),
    assetstoreId := 7 }

/-- A concrete empty file record. -/
def fileEmpty : FileRec :=
  { fid := 2, name := strOf "empty.txt", size := 0, assetstoreId := 7 }

/-- C7 counterexample: downloading the non-empty file as part of an archive
with `offset = 1` streams the whole backend object (`abc`), not the
suffix from the requested offset (`bc`) — the stream does not start at the
given offset. -/
theorem downloadFile_counterexample :
    downloadFile ast0 hmac0 0 fileAbc (strOf "abc") 1 false =
      .stream (strOf "abc") ∧
    DownloadResult.stream (strOf "abc") ≠
      .stream (List.drop 1 (strOf "abc")) := by
  exact ⟨rfl, by decide⟩

/-- Witness for C7 (amended) on the concrete empty and size-3 files. -/
theorem downloadFile_spec_witness :
    downloadFile ast0 hmac0 0 fileEmpty (strOf "") 0 true =
      .emptyWithHeaders (strOf "0") (strOf "application/octet-stream")
        (strOf "attachment; filename=\"empty.txt\"") ∧
    downloadFile ast0 hmac0 0 fileAbc (strOf "abc") 2 false =
      .stream (strOf "abc") := by
  constructor
  · exact ((downloadFile_spec ast0 hmac0 0 fileEmpty (strOf "") 0).1
      (by decide)).trans (by decide)
  · exact (downloadFile_spec ast0 hmac0 0 fileAbc (strOf "abc") 2).2.2.1
      (by decide)

/-- Payload handed to the `_s3_assetstore_delete_file` daemon trigger. -/
structure DeleteEvent where
  botoConnect : BotoConnect
  bucket : Str
  key : Option Str
deriving DecidableEq, Repr

/-- Embedding of `S3AssetstoreAdapter.deleteFile`.  `db` is the File collection backing
`self.model('file').find`; the query matches `relpath` and `assetstoreId`
with `limit=2`, and the trigger fires only when the bounded result count is
exactly 1.  Returns the triggered deletion event, if any. -/
def deleteFile (ast : Assetstore) (db : List FileRec) (file : FileRec) :
    Option DeleteEvent :=
  if file.size > 0 ∧ file.relpath.isSome then
    let matching := (db.filter (fun f =>
      f.relpath = file.relpath ∧ f.assetstoreId = ast.astId)).take 2
    if matching.length = 1 then
      some { botoConnect := ast.botoConnect, bucket := ast.bucket,
             key := file.s3Key }
    else none
  else none

theorem take_two_length_one {α : Type} (l : List α) :
    (l.take 2).length = 1 ↔ l.length = 1 := by
  cases l with
  | nil => simp
  | cons a t => cases t <;> simp [List.take]

/-- C5: `deleteFile` triggers asynchronous physical deletion precisely when
the file is not an imported reference (equivalently, for a well-formed
record, carries a `relpath` locator) and exactly one File record in its
assetstore matches its `relpath` — established by the limit-2 find whose
result count must equal 1; with a second referencing record, or for an
imported file, nothing is enqueued.  The well-formedness hypothesis records
the lifecycle fact that exactly the non-imported, positive-size files carry
a `relpath` (imported records get only `s3Key`; empty uploads are never
assigned a locator). -/
theorem deleteFile_spec (ast : Assetstore) (db : List FileRec)
    (file : FileRec)
    (hwf : file.relpath.isSome ↔ (file.imported = false ∧ 0 < file.size)) :
    (deleteFile ast db file).isSome ↔
      (file.imported = false ∧ file.relpath.isSome ∧
        (db.filter (fun f => f.relpath = file.relpath ∧
          f.assetstoreId = ast.astId)).length = 1) := by
  unfold deleteFile
  by_cases h1 : file.size > 0 ∧ file.relpath.isSome
  · rw [if_pos h1]
    by_cases h2 : ((db.filter (fun f => f.relpath = file.relpath ∧
        f.assetstoreId = ast.astId)).take 2).length = 1
    · rw [if_pos h2]
      simp only [Option.isSome_some, true_iff]
      exact ⟨(hwf.mp h1.2).1, h1.2, (take_two_length_one _).mp h2⟩
    · rw [if_neg h2]
      simp only [Option.isSome_none, Bool.false_eq_true, false_iff]
      rintro ⟨-, -, hlen⟩
      exact h2 ((take_two_length_one _).mpr hlen)
  · rw [if_neg h1]
    simp only [Option.isSome_none, Bool.false_eq_true, false_iff]
    rintro ⟨himp, hrp, -⟩
    exact h1 ⟨(hwf.mp hrp).2, hrp⟩

/-- A second file record referencing the same physical locator. -/
def fileAbcDup : FileRec := { fileAbc with fid := 3 }

/-- Witness for C5: with a single referencing record the deletion trigger
fires; with two records sharing the locator it does not. -/
theorem deleteFile_spec_witness :
    (deleteFile ast0 [fileAbc] fileAbc).isSome = true ∧
    deleteFile ast0 [fileAbc, fileAbcDup] fileAbc = none := by
  constructor
  · exact (deleteFile_spec ast0 [fileAbc] fileAbc (by decide)).mpr
      ⟨by decide, by decide, by decide⟩
  · have h2 := deleteFile_spec ast0 [fileAbc, fileAbcDup] fileAbc (by decide)
    have hn : ¬ (deleteFile ast0 [fileAbc, fileAbcDup] fileAbc).isSome = true := by
      intro hh
      have := (h2.mp hh).2.2
      revert this
      decide
    exact Option.not_isSome_iff_eq_none.mp hn

/-! ## untrackedUploads -/

/-- A backend-side multipart session, as enumerated by
`bucket.get_all_multipart_uploads` (upload id and key name). -/
structure MultipartUpload where
  mid : Str
  key_name : Str
deriving DecidableEq, Repr

/-- An entry of the untracked list: `{'s3': {'uploadId': ..., 'key': ...}}`. -/
structure UnknownUpload where
  uploadId : Str
  key : Str
deriving DecidableEq, Repr

/-- Embedding of `S3AssetstoreAdapter._uploadIsKnown`: the session matches some known
upload carrying `s3.uploadId` on both the backend upload id and the key. -/
def uploadIsKnown (mp : MultipartUpload) (knownUploads : List Upload) : Bool :=
  knownUploads.any (fun upload =>
    match upload.s3 with
    | some st =>
      match st.uploadId with
      | some uid => decide (mp.mid = uid ∧ mp.key_name = st.key)
      | none => false
    | none => false)

/-- The body of `untrackedUploads`' enumeration loop over the backend's
multipart sessions: skip known sessions and sessions outside the prefix;
collect the rest, cancelling them when `del` is set. -/
def untrackedAux (knownUploads : List Upload) (del : Bool) (pfx1 : Str) :
    List MultipartUpload → List UnknownUpload × List MultipartUpload
  | [] => ([], [])
  | mp :: rest =>
    let r := untrackedAux knownUploads del pfx1 rest
    if uploadIsKnown mp knownUploads then r
    else if ¬ pyStartswith mp.key_name pfx1 then r
    else (⟨mp.mid, mp.key_name⟩ :: r.1, if del then mp :: r.2 else r.2)

/-- Embedding of `S3AssetstoreAdapter.untrackedUploads`.  `mps` is the concatenation of
the pages returned by the backend's multipart-session listing; the returned
pair is the untracked list and the sessions cancelled (when `del`). -/
def untrackedUploads (ast : Assetstore) (knownUploads : List Upload)
    (del : Bool) (mps : List MultipartUpload) :
    List UnknownUpload × List MultipartUpload :=
  let pfx1 := if ast.pfx ≠ [] then ast.pfx ++ strOf "/" else ast.pfx
  untrackedAux knownUploads del pfx1 mps

theorem untrackedAux_mem_listed (knownUploads : List Upload) (del : Bool)
    (pfx1 : Str) (mps : List MultipartUpload) (x : UnknownUpload) :
    x ∈ (untrackedAux knownUploads del pfx1 mps).1 ↔
      ∃ mp ∈ mps, uploadIsKnown mp knownUploads = false ∧
        pyStartswith mp.key_name pfx1 = true ∧
        x = ⟨mp.mid, mp.key_name⟩ := by
  induction mps with
  | nil => simp [untrackedAux]
  | cons mp rest ih =>
    unfold untrackedAux
    simp only
    by_cases h1 : uploadIsKnown mp knownUploads
    · rw [if_pos h1, ih]
      constructor
      · rintro ⟨m, hm, hk⟩
        exact ⟨m, by simp [hm], hk⟩
      · rintro ⟨m, hm, hk, hs, hx⟩
        rcases List.mem_cons.mp hm with rfl | hm'
        · rw [h1] at hk
          cases hk
        · exact ⟨m, hm', hk, hs, hx⟩
    · rw [if_neg h1]
      by_cases h2 : pyStartswith mp.key_name pfx1
      · rw [if_neg (by simp [h2])]
        simp only [List.mem_cons, ih]
        constructor
        · rintro (rfl | ⟨m, hm, hk⟩)
          · exact ⟨mp, by simp, by simp [h1], h2, rfl⟩
          · exact ⟨m, by simp [hm], hk⟩
        · rintro ⟨m, hm, hk, hs, hx⟩
          rcases hm with rfl | hm'
          · exact Or.inl hx
          · exact Or.inr ⟨m, hm', hk, hs, hx⟩
      · rw [if_pos (by simp [h2]), ih]
        constructor
        · rintro ⟨m, hm, hk⟩
          exact ⟨m, by simp [hm], hk⟩
        · rintro ⟨m, hm, hk, hs, hx⟩
          rcases List.mem_cons.mp hm with rfl | hm'
          · rw [hs] at h2
            cases h2 rfl
          · exact ⟨m, hm', hk, hs, hx⟩

theorem untrackedAux_mem_cancelled (knownUploads : List Upload) (del : Bool)
    (pfx1 : Str) (mps : List MultipartUpload) (m : MultipartUpload) :
    m ∈ (untrackedAux knownUploads del pfx1 mps).2 →
      uploadIsKnown m knownUploads = false ∧
      pyStartswith m.key_name pfx1 = true := by
  induction mps with
  | nil => simp [untrackedAux]
  | cons mp rest ih =>
    unfold untrackedAux
    simp only
    by_cases h1 : uploadIsKnown mp knownUploads
    · rw [if_pos h1]
      exact ih
    · rw [if_neg h1]
      by_cases h2 : pyStartswith mp.key_name pfx1
      · rw [if_neg (by simp [h2])]
        cases del with
        | false =>
          simp only [if_neg (by simp : ¬ (false : Bool) = true)]
          exact ih
        | true =>
          simp only [if_pos rfl]
          intro hmem
          rcases List.mem_cons.mp hmem with heq | hm
          · subst heq
            exact ⟨by simp [h1], h2⟩
          · exact ih hm
      · rw [if_pos (by simp [h2])]
        exact ih

theorem pyStartswith_drop_slash (s p : Str)
    (h : pyStartswith s (p ++ strOf "/") = true) :
    pyStartswith s p = true := by
  unfold pyStartswith at h ⊢
  rw [List.isPrefixOf_iff_prefix] at h ⊢
  exact (List.prefix_append p (strOf "/")).trans h

/-- C10: every session returned by `untrackedUploads` matches no known
upload's (backend-upload-id, key) pair and has a key name starting with the
assetstore's configured prefix (indeed with the slash-terminated prefix the
code checks); the same holds for every session it cancels; and a backend
session under a different prefix is never listed nor cancelled, known or
not. -/
theorem untrackedUploads_spec (ast : Assetstore) (knownUploads : List Upload)
    (del : Bool) (mps : List MultipartUpload) :
    (∀ u ∈ (untrackedUploads ast knownUploads del mps).1,
      uploadIsKnown ⟨u.uploadId, u.key⟩ knownUploads = false ∧
      pyStartswith u.key ast.pfx = true) ∧
    (∀ mp ∈ (untrackedUploads ast knownUploads del mps).2,
      uploadIsKnown mp knownUploads = false ∧
      pyStartswith mp.key_name ast.pfx = true) ∧
    (∀ mp ∈ mps,
      pyStartswith mp.key_name
        (if ast.pfx ≠ [] then ast.pfx ++ strOf "/" else ast.pfx) = false →
      (⟨mp.mid, mp.key_name⟩ : UnknownUpload) ∉
          (untrackedUploads ast knownUploads del mps).1 ∧
      mp ∉ (untrackedUploads ast knownUploads del mps).2) := by
  have hpfx : ∀ s : Str,
      pyStartswith s (if ast.pfx ≠ [] then ast.pfx ++ strOf "/" else ast.pfx)
        = true → pyStartswith s ast.pfx = true := by
    intro s h
    by_cases hp : ast.pfx = []
    · rw [if_neg (by simp [hp])] at h
      exact h
    · rw [if_pos hp] at h
      exact pyStartswith_drop_slash s ast.pfx h
  refine ⟨?_, ?_, ?_⟩
  · intro u hu
    obtain ⟨mp, hmp, hk, hs, rfl⟩ :=
      (untrackedAux_mem_listed knownUploads del _ mps u).mp hu
    exact ⟨hk, hpfx _ hs⟩
  · intro mp hmp
    obtain ⟨hk, hs⟩ := untrackedAux_mem_cancelled knownUploads del _ mps mp hmp
    exact ⟨hk, hpfx _ hs⟩
  · intro mp hmp hns
    constructor
    · intro hin
      obtain ⟨m, hm, hk, hs, heq⟩ :=
        (untrackedAux_mem_listed knownUploads del _ mps _).mp hin
      have hkey : mp.key_name = m.key_name := by
        have := congrArg UnknownUpload.key heq
        exact this
      rw [hkey, hs] at hns
      cases hns
    · intro hin
      obtain ⟨hk, hs⟩ :=
        untrackedAux_mem_cancelled knownUploads del _ mps mp hin
      rw [hs] at hns
      cases hns

/-- Witness for C10: with prefix `test`, an unknown in-prefix session is
listed (unmatched, in prefix), and an unknown session under `other/` is
neither listed nor cancelled. -/
theorem untrackedUploads_spec_witness :
    (uploadIsKnown ⟨strOf "idA", strOf "test/ab"⟩ [] = false ∧
     pyStartswith (strOf "test/ab") ast0.pfx = true) ∧
    ((⟨strOf "idB", strOf "other/ab"⟩ : UnknownUpload) ∉
      (untrackedUploads ast0 [] true
        [⟨strOf "idA", strOf "test/ab"⟩,
         ⟨strOf "idB", strOf "other/ab"⟩]).1 ∧
     (⟨strOf "idB", strOf "other/ab"⟩ : MultipartUpload) ∉
      (untrackedUploads ast0 [] true
        [⟨strOf "idA", strOf "test/ab"⟩,
         ⟨strOf "idB", strOf "other/ab"⟩]).2) := by
  have h := untrackedUploads_spec ast0 [] true
    [⟨strOf "idA", strOf "test/ab"⟩, ⟨strOf "idB", strOf "other/ab"⟩]
  constructor
  · exact h.1 ⟨strOf "idA", strOf "test/ab"⟩ (by decide)
  · exact h.2.2 ⟨strOf "idB", strOf "other/ab"⟩ (by decide) (by decide)

/-! ## importData: the import walker -/

/-- A backend namespace entry as yielded by `bucket.list(importPath, '/')`:
a common prefix (`boto.s3.prefix.Prefix`, whose name ends with the
delimiter, together with the sub-listing the recursive call would
enumerate) or an object key (`boto.s3.key.Key`).  Names are full key
names, as boto returns them. -/
inductive S3Node where
  | pre (fullName : Str) (children : List S3Node)
  | key (fullName : Str) (osize : Int)

/-- A folder metadata record. -/
structure GFolder where
  fid : Nat
  name : Str
  parentId : Nat
  parentType : Str
deriving DecidableEq, Repr

/-- An item metadata record. -/
structure GItem where
  iid : Nat
  name : Str
  folderId : Nat
deriving DecidableEq, Repr

/-- The metadata document store (folders, items, files) with a fresh-id
counter. -/
structure GDB where
  folders : List GFolder := []
  items : List GItem := []
  files : List FileRec := []
  nextId : Nat := 0
deriving DecidableEq, Repr

/-- Modelled from the spec (§4.5, §6): `createFolder` with
`reuseExisting=True` returns the existing folder matching (name, parent,
parentType) when there is one, else inserts a fresh record. -/
def createFolder (db : GDB) (parentId : Nat) (parentType : Str)
    (name : Str) : GFolder × GDB :=
  match db.folders.find? (fun f =>
      decide (f.name = name ∧ f.parentId = parentId ∧
        f.parentType = parentType)) with
  | some f => (f, db)
  | none =>
    let f : GFolder := ⟨db.nextId, name, parentId, parentType⟩
    (f, { db with folders := db.folders ++ [f], nextId := db.nextId + 1 })

/-- Modelled from the spec (§4.5, §6): `createItem` with
`reuseExisting=True` on the (name, folder) key. -/
def createItem (db : GDB) (folderId : Nat) (name : Str) : GItem × GDB :=
  match db.items.find? (fun i =>
      decide (i.name = name ∧ i.folderId = folderId)) with
  | some i => (i, db)
  | none =>
    let i : GItem := ⟨db.nextId, name, folderId⟩
    (i, { db with items := db.items ++ [i], nextId := db.nextId + 1 })

/-- Modelled from the spec (§4.5, §6): `createFile` with
`reuseExisting=True` on the (name, item) key; a fresh record starts
unimported with no locator. -/
def createFile (db : GDB) (itemId : Nat) (name : Str) (fsize : Int)
    (astId : Nat) : FileRec × GDB :=
  match db.files.find? (fun f =>
      decide (f.name = name ∧ f.itemId = itemId)) with
  | some f => (f, db)
  | none =>
    let f : FileRec :=
      { fid := db.nextId, name := name, itemId := itemId,
        size := fsize, imported := false, s3Key := none, relpath := none,
        assetstoreId := astId }
    (f, { db with files := db.files ++ [f], nextId := db.nextId + 1 })

/-- Modelled from the spec (§6): `save` replaces the file record with the
same id. -/
def saveFile (db : GDB) (f : FileRec) : GDB :=
  { db with files := db.files.map (fun g => if g.fid = f.fid then f else g) }

/-- Embedding of `S3AssetstoreAdapter.importData`, walking one listing level: for each
prefix entry create-or-reuse a folder and recurse into its sub-listing; for
each key entry with a nonempty last segment create-or-reuse an item and a
file, stamp `s3Key` and `imported` on the file and save it.  A key directly
under a non-folder parent raises a `ValidationException`, which aborts the
walk with the state mutated so far. -/
def importList (ast : Assetstore) (db : GDB) (parentId : Nat)
    (parentType : Str) : List S3Node → GDB × Option Str
  | [] => (db, none)
  | S3Node.pre fullName children :: rest =>
    let fd := createFolder db parentId parentType
      (lastSegment (pyRstripSlash fullName))
    match importList ast fd.2 fd.1.fid (strOf "folder") children with
    | (db2, some e) => (db2, some e)
    | (db2, none) => importList ast db2 parentId parentType rest
  | S3Node.key fullName osize :: rest =>
    let name := lastSegment fullName
    if name = [] then importList ast db parentId parentType rest
    else if parentType ≠ strOf "folder" then
      (db, some (strOf "Keys cannot be imported directly underneath a " ++
        parentType ++ strOf "."))
    else
      let it := createItem db parentId name
      let fl := createFile it.2 it.1.iid name osize ast.astId
      let db3 := saveFile fl.2
        { fl.1 with s3Key := some fullName, imported := true }
      importList ast db3 parentId parentType rest

/-- The key on which `createFolder` dedups. -/
def folderKey (f : GFolder) : Str × Nat × Str := (f.name, f.parentId, f.parentType)

/-- The key on which `createItem` dedups. -/
def itemKey (i : GItem) : Str × Nat := (i.name, i.folderId)

/-- The key on which `createFile` dedups. -/
def fileKey (f : FileRec) : Str × Nat := (f.name, f.itemId)

/-- No two folder/item/file records share a dedup key, file ids are
distinct, and every file id is below the fresh-id counter. -/
def WFDB (db : GDB) : Prop :=
  (db.folders.map folderKey).Nodup ∧
  (db.items.map itemKey).Nodup ∧
  (db.files.map fileKey).Nodup ∧
  (db.files.map FileRec.fid).Nodup ∧
  ∀ f ∈ db.files, f.fid < db.nextId

/-- What one importer step does to the store: the id counter never
decreases, well-formedness (hence duplicate-freeness) is preserved, every
file record present afterwards was either already there or carries
`imported = true`, and no `relpath` locator is ever assigned. -/
def StepOK (db db' : GDB) : Prop :=
  db.nextId ≤ db'.nextId ∧
  (WFDB db → WFDB db') ∧
  (∀ f ∈ db'.files, f ∈ db.files ∨ f.imported = true) ∧
  ((∀ f ∈ db.files, f.relpath = none) → ∀ f ∈ db'.files, f.relpath = none)

theorem stepOK_refl (db : GDB) : StepOK db db :=
  ⟨le_refl _, id, fun f hf => Or.inl hf, fun h => h⟩

theorem stepOK_trans {a b c : GDB} (h1 : StepOK a b) (h2 : StepOK b c) :
    StepOK a c := by
  refine ⟨le_trans h1.1 h2.1, fun hw => h2.2.1 (h1.2.1 hw), ?_, ?_⟩
  · intro f hf
    rcases h2.2.2.1 f hf with hb | himp
    · exact h1.2.2.1 f hb
    · exact Or.inr himp
  · intro hall f hf
    exact h2.2.2.2 (h1.2.2.2 hall) f hf

theorem nodup_append_singleton {α : Type} {l : List α} {x : α}
    (h : l.Nodup) (hx : x ∉ l) : (l ++ [x]).Nodup := by
  simp [List.nodup_append, h, hx]

theorem createFolder_step (db : GDB) (pid : Nat) (pt nm : Str) :
    StepOK db (createFolder db pid pt nm).2 ∧
    (createFolder db pid pt nm).2.files = db.files ∧
    (createFolder db pid pt nm).2.items = db.items ∧
    (createFolder db pid pt nm).2.nextId ≤ db.nextId + 1 := by
  unfold createFolder
  cases hf : db.folders.find? (fun f =>
      decide (f.name = nm ∧ f.parentId = pid ∧ f.parentType = pt)) with
  | some f =>
    exact ⟨stepOK_refl db, rfl, rfl, Nat.le_succ _⟩
  | none =>
    have hnotin : (nm, pid, pt) ∉ db.folders.map folderKey := by
      intro hmem
      obtain ⟨a, ha, hk⟩ := List.mem_map.mp hmem
      have := List.find?_eq_none.mp hf a ha
      simp only [decide_eq_true_eq] at this
      apply this
      have h1 := congrArg Prod.fst hk
      have h2 := congrArg (fun p => p.2.1) hk
      have h3 := congrArg (fun p => p.2.2) hk
      exact ⟨h1, h2, h3⟩
    refine ⟨⟨Nat.le_succ _, ?_, fun f hf => Or.inl hf, fun h => h⟩, rfl, rfl,
      le_refl _⟩
    intro hw
    refine ⟨?_, hw.2.1, hw.2.2.1, hw.2.2.2.1, ?_⟩
    · rw [List.map_append]
      exact nodup_append_singleton hw.1 (by simpa [folderKey] using hnotin)
    · intro f hfm
      exact lt_trans (hw.2.2.2.2 f hfm) (Nat.lt_succ_self _)

theorem createItem_step (db : GDB) (fid : Nat) (nm : Str) :
    StepOK db (createItem db fid nm).2 ∧
    (createItem db fid nm).2.files = db.files ∧
    (createItem db fid nm).2.folders = db.folders ∧
    (createItem db fid nm).2.nextId ≤ db.nextId + 1 := by
  unfold createItem
  cases hf : db.items.find? (fun i =>
      decide (i.name = nm ∧ i.folderId = fid)) with
  | some i =>
    exact ⟨stepOK_refl db, rfl, rfl, Nat.le_succ _⟩
  | none =>
    have hnotin : (nm, fid) ∉ db.items.map itemKey := by
      intro hmem
      obtain ⟨a, ha, hk⟩ := List.mem_map.mp hmem
      have := List.find?_eq_none.mp hf a ha
      simp only [decide_eq_true_eq] at this
      exact this ⟨congrArg Prod.fst hk, congrArg Prod.snd hk⟩
    refine ⟨⟨Nat.le_succ _, ?_, fun f hf => Or.inl hf, fun h => h⟩, rfl, rfl,
      le_refl _⟩
    intro hw
    refine ⟨hw.1, ?_, hw.2.2.1, hw.2.2.2.1, ?_⟩
    · rw [List.map_append]
      exact nodup_append_singleton hw.2.1 (by simpa [itemKey] using hnotin)
    · intro f hfm
      exact lt_trans (hw.2.2.2.2 f hfm) (Nat.lt_succ_self _)

theorem createFile_step (db : GDB) (iid : Nat) (nm : Str) (sz : Int)
    (aid : Nat) :
    db.nextId ≤ (createFile db iid nm sz aid).2.nextId ∧
    (WFDB db → WFDB (createFile db iid nm sz aid).2) ∧
    (createFile db iid nm sz aid).1 ∈ (createFile db iid nm sz aid).2.files ∧
    (createFile db iid nm sz aid).1.name = nm ∧
    (createFile db iid nm sz aid).1.itemId = iid ∧
    (∀ g ∈ (createFile db iid nm sz aid).2.files,
      g ∈ db.files ∨ g = (createFile db iid nm sz aid).1) ∧
    ((createFile db iid nm sz aid).1 ∈ db.files ∨
      (createFile db iid nm sz aid).1.relpath = none) ∧
    (createFile db iid nm sz aid).2.folders = db.folders ∧
    (createFile db iid nm sz aid).2.items = db.items := by
  unfold createFile
  cases hf : db.files.find? (fun f =>
      decide (f.name = nm ∧ f.itemId = iid)) with
  | some f =>
    have hmem : f ∈ db.files := List.mem_of_find?_eq_some hf
    have hp := List.find?_some hf
    simp only [decide_eq_true_eq] at hp
    exact ⟨le_refl _, id, hmem, hp.1, hp.2, fun g hg => Or.inl hg,
      Or.inl hmem, rfl, rfl⟩
  | none =>
    have hnotin : (nm, iid) ∉ db.files.map fileKey := by
      intro hmem
      obtain ⟨a, ha, hk⟩ := List.mem_map.mp hmem
      have := List.find?_eq_none.mp hf a ha
      simp only [decide_eq_true_eq] at this
      exact this ⟨congrArg Prod.fst hk, congrArg Prod.snd hk⟩
    refine ⟨Nat.le_succ _, ?_, List.mem_append.mpr (Or.inr (by simp)), rfl,
      rfl, ?_, Or.inr rfl, rfl, rfl⟩
    · intro hw
      refine ⟨hw.1, hw.2.1, ?_, ?_, ?_⟩
      · rw [List.map_append]
        exact nodup_append_singleton hw.2.2.1 (by simpa [fileKey] using hnotin)
      · rw [List.map_append]
        refine nodup_append_singleton hw.2.2.2.1 ?_
        intro hmem
        obtain ⟨a, ha, hk⟩ := List.mem_map.mp hmem
        have := hw.2.2.2.2 a ha
        simp only at hk
        omega
      · intro f hfm
        rcases List.mem_append.mp hfm with hl | hr
        · exact lt_trans (hw.2.2.2.2 f hl) (Nat.lt_succ_self _)
        · have hfr := List.mem_singleton.mp hr
          rw [hfr]
          exact Nat.lt_succ_self _
    · intro g hg
      rcases List.mem_append.mp hg with hl | hr
      · exact Or.inl hl
      · exact Or.inr (by simpa using hr)

theorem saveFile_step (db : GDB) (r f' : FileRec) (hr : r ∈ db.files)
    (hfid : f'.fid = r.fid) (hnm : f'.name = r.name)
    (hit : f'.itemId = r.itemId) :
    (WFDB db → WFDB (saveFile db f')) ∧
    (saveFile db f').nextId = db.nextId ∧
    (∀ g ∈ (saveFile db f').files,
      (g ∈ db.files ∧ g.fid ≠ f'.fid) ∨ g = f') ∧
    (saveFile db f').folders = db.folders ∧
    (saveFile db f').items = db.items := by
  refine ⟨?_, rfl, ?_, rfl, rfl⟩
  · intro hw
    have hinj := List.inj_on_of_nodup_map hw.2.2.2.1
    have hkey : ∀ g ∈ db.files,
        fileKey (if g.fid = f'.fid then f' else g) = fileKey g := by
      intro g hg
      by_cases hfe : g.fid = f'.fid
      · rw [if_pos hfe]
        have hgr : g = r := hinj hg hr (by omega)
        subst hgr
        unfold fileKey
        rw [hnm, hit]
      · rw [if_neg hfe]
    have hid : ∀ g ∈ db.files,
        FileRec.fid (if g.fid = f'.fid then f' else g) = FileRec.fid g := by
      intro g hg
      by_cases hfe : g.fid = f'.fid
      · rw [if_pos hfe, hfe]
      · rw [if_neg hfe]
    refine ⟨hw.1, hw.2.1, ?_, ?_, ?_⟩
    · show ((db.files.map _).map fileKey).Nodup
      rw [List.map_map]
      simp only [Function.comp_def]
      rw [List.map_congr_left hkey]
      exact hw.2.2.1
    · show ((db.files.map _).map FileRec.fid).Nodup
      rw [List.map_map]
      simp only [Function.comp_def]
      rw [List.map_congr_left hid]
      exact hw.2.2.2.1
    · intro g hg
      obtain ⟨g0, hg0, hmap⟩ := List.mem_map.mp hg
      have := hw.2.2.2.2 g0 hg0
      rw [← hmap]
      by_cases hfe : g0.fid = f'.fid
      · rw [if_pos hfe]
        show f'.fid < db.nextId
        omega
      · rw [if_neg hfe]
        exact this
  · intro g hg
    obtain ⟨g0, hg0, hmap⟩ := List.mem_map.mp hg
    by_cases hfe : g0.fid = f'.fid
    · rw [if_pos hfe] at hmap
      exact Or.inr hmap.symm
    · rw [if_neg hfe] at hmap
      rw [← hmap]
      exact Or.inl ⟨hg0, hfe⟩

theorem importKey_step (db : GDB) (pid : Nat) (nm fullName : Str)
    (osize : Int) (aid : Nat) :
    StepOK db (saveFile
      (createFile (createItem db pid nm).2 (createItem db pid nm).1.iid nm
        osize aid).2
      { (createFile (createItem db pid nm).2 (createItem db pid nm).1.iid nm
          osize aid).1 with
        s3Key := some fullName, imported := true }) := by
  set it := createItem db pid nm with hit
  set fl := createFile it.2 it.1.iid nm osize aid with hfldef
  have hi := createItem_step db pid nm
  have hc := createFile_step it.2 it.1.iid nm osize aid
  rw [← hit] at hi
  rw [← hfldef] at hc
  have hs := saveFile_step fl.2 fl.1
    { fl.1 with s3Key := some fullName, imported := true }
    hc.2.2.1 rfl rfl rfl
  refine ⟨?_, ?_, ?_, ?_⟩
  · exact le_trans (le_trans hi.1.1 hc.1) (le_of_eq hs.2.1.symm)
  · intro hw
    exact hs.1 (hc.2.1 (hi.1.2.1 hw))
  · intro g hg
    rcases hs.2.2.1 g hg with ⟨hmem, hne⟩ | heq
    · rcases hc.2.2.2.2.2.1 g hmem with hmem2 | heq2
      · rw [hi.2.1] at hmem2
        exact Or.inl hmem2
      · exact absurd (by rw [heq2]) hne
    · rw [heq]
      exact Or.inr rfl
  · intro hall g hg
    have hfl1 : fl.1.relpath = none := by
      rcases hc.2.2.2.2.2.2.1 with hmem | hnone
      · rw [hi.2.1] at hmem
        exact hall _ hmem
      · exact hnone
    rcases hs.2.2.1 g hg with ⟨hmem, -⟩ | heq
    · rcases hc.2.2.2.2.2.1 g hmem with hmem2 | heq2
      · rw [hi.2.1] at hmem2
        exact hall _ hmem2
      · rw [heq2]
        exact hfl1
    · rw [heq]
      exact hfl1


theorem importList_stepOK (ast : Assetstore) (l : List S3Node) (db : GDB)
    (pid : Nat) (pt : Str) :
    StepOK db (importList ast db pid pt l).1 := by
  induction db, pid, pt, l using importList.induct ast with
  | case1 db pid pt =>
    simp only [importList]
    exact stepOK_refl db
  | case2 db pid pt fullName children rest fd db2 e heq ih1 =>
    simp only [importList]
    rw [show createFolder db pid pt (lastSegment (pyRstripSlash fullName))
      = fd from rfl]
    simp only [heq]
    rw [heq] at ih1
    exact stepOK_trans
      (createFolder_step db pid pt (lastSegment (pyRstripSlash fullName))).1
      ih1
  | case3 db pid pt fullName children rest fd db2 heq ih1 ih2 =>
    simp only [importList]
    rw [show createFolder db pid pt (lastSegment (pyRstripSlash fullName))
      = fd from rfl]
    simp only [heq]
    rw [heq] at ih1
    exact stepOK_trans (stepOK_trans
      (createFolder_step db pid pt (lastSegment (pyRstripSlash fullName))).1
      ih1) ih2
  | case4 db pid pt fullName osize rest name hname ih =>
    simp only [importList]
    rw [if_pos hname]
    exact ih
  | case5 db pid pt fullName osize rest name hname hpt =>
    simp only [importList]
    rw [if_neg hname, if_pos hpt]
    exact stepOK_refl db
  | case6 db pid pt fullName osize rest name hname hpt it fl db3 ih =>
    simp only [importList]
    rw [if_neg hname, if_neg hpt]
    exact stepOK_trans
      (importKey_step db pid (lastSegment fullName) fullName osize ast.astId)
      ih

/-- C8: running the import walker twice over the same namespace listing
with the same destination produces no duplicate folder, item, or file
records — a store whose dedup keys are duplicate-free stays so through both
runs, every create call reusing the existing record when one matches — and
every file record the import added or touched carries `imported = true`,
with no `relpath` locator ever assigned (starting from a store with none). -/
theorem importData_twice_spec (ast : Assetstore) (l : List S3Node)
    (db : GDB) (pid : Nat) (pt : Str) (hw : WFDB db) :
    WFDB (importList ast (importList ast db pid pt l).1 pid pt l).1 ∧
    (∀ f ∈ (importList ast (importList ast db pid pt l).1 pid pt l).1.files,
      f ∈ db.files ∨ f.imported = true) ∧
    ((∀ f ∈ db.files, f.relpath = none) →
      ∀ f ∈ (importList ast (importList ast db pid pt l).1 pid pt l).1.files,
        f.relpath = none) := by
  have h1 := importList_stepOK ast l db pid pt
  have h2 := importList_stepOK ast l (importList ast db pid pt l).1 pid pt
  have h := stepOK_trans h1 h2
  exact ⟨h.2.1 hw, h.2.2.1, h.2.2.2⟩

/-- The namespace listing of the repository's import test: one `foo/`
prefix holding one `bar/` prefix holding one empty object `foo/bar/test`. -/
def lDemo : List S3Node :=
  [S3Node.pre (strOf "foo/")
    [S3Node.pre (strOf "foo/bar/")
      [S3Node.key (strOf "foo/bar/test") 0]]]

/-- Witness for C8: starting from an empty (trivially well-formed) store,
the store remains duplicate-free after importing the demo namespace twice,
and every file record present afterwards is a fresh `imported = true`
record. -/
theorem importData_twice_spec_witness :
    WFDB (importList ast0 (importList ast0 {} 0 (strOf "folder") lDemo).1 0
      (strOf "folder") lDemo).1 ∧
    (∀ f ∈ (importList ast0 (importList ast0 {} 0 (strOf "folder") lDemo).1
        0 (strOf "folder") lDemo).1.files,
      f ∈ ({} : GDB).files ∨ f.imported = true) := by
  have h := importData_twice_spec ast0 lDemo {} 0 (strOf "folder")
    ⟨by decide, by decide, by decide, by decide, by intro f hf; cases hf⟩
  exact ⟨h.1, h.2.1⟩
